import Mathlib

/-!
Shallow embedding of the core of the aptos-aggregator repository
(TypeScript backend + SDK), together with theorems checking the
natural-language specification against the code.

Conventions of the embedding:
* `decimal.js` `Decimal` values are modelled as exact rationals (`ℚ`);
  the code performs all arithmetic relevant to the verified claims on
  small decimal values where the library is exact.
* a TypeScript function that can `throw` is modelled as returning
  `Option` (`none` = the function throws);
* JavaScript `Map` objects are modelled as association lists in
  insertion order, matching `Map`'s iteration-order semantics;
* numbers that the code produces with `Math.floor` are modelled as `ℤ`.
-/

namespace AptosAgg

/-- Constant `BASIS_POINTS` from `src/sdk/src/constants.ts`. -/
def BASIS_POINTS : ℚ := 10000

namespace MathUtils

/-- Function `MathUtils.calculateFee` from `src/sdk/src/math.ts`:
`amount * (feeRateBp / BASIS_POINTS)`. -/
def calculateFee (amount feeRateBp : ℚ) : ℚ :=
  amount * (feeRateBp / BASIS_POINTS)

/-- Function `MathUtils.amountAfterFee` from `src/sdk/src/math.ts`:
`amount - calculateFee(amount, feeRateBp)`. -/
def amountAfterFee (amount feeRateBp : ℚ) : ℚ :=
  amount - calculateFee amount feeRateBp

/-- Function `MathUtils.calculateMinOutput` from `src/sdk/src/math.ts`.
The TypeScript function performs the scaling unconditionally (it contains
no validation and never throws), so it is modelled as a total function. -/
def calculateMinOutput (amount slippageToleranceBp : ℚ) : ℚ :=
  amount - amount * (slippageToleranceBp / BASIS_POINTS)

/-- Function `MathUtils.calculateMaxInput` from `src/sdk/src/math.ts`.
Total for the same reason as `calculateMinOutput`. -/
def calculateMaxInput (amount slippageToleranceBp : ℚ) : ℚ :=
  amount + amount * (slippageToleranceBp / BASIS_POINTS)

/-- Function `MathUtils.getAmountOut` from `src/sdk/src/math.ts`.
`none` models the `throw new Error('Invalid amounts or reserves')`. -/
def getAmountOut (amountIn reserveIn reserveOut feeRateBp : ℚ) : Option ℚ :=
  if amountIn ≤ 0 ∨ reserveIn ≤ 0 ∨ reserveOut ≤ 0 then none
  else
    let amountInWithFee := amountAfterFee amountIn feeRateBp
    some (amountInWithFee * reserveOut / (reserveIn + amountInWithFee))

/-- Function `MathUtils.getAmountIn` from `src/sdk/src/math.ts`.
The first `none` models `throw new Error('Invalid amounts or reserves')`,
the second models `throw new Error('Amount out exceeds reserve')`. -/
def getAmountIn (amountOut reserveIn reserveOut feeRateBp : ℚ) : Option ℚ :=
  if amountOut ≤ 0 ∨ reserveIn ≤ 0 ∨ reserveOut ≤ 0 then none
  else if reserveOut ≤ amountOut then none
  else
    some ((reserveIn * amountOut / (reserveOut - amountOut) + 1)
      * BASIS_POINTS / (BASIS_POINTS - feeRateBp))

/-- Function `MathUtils.calculatePriceImpact` from `src/sdk/src/math.ts`.
Returns `BASIS_POINTS` when a reserve is `≤ 0`; returns `0` when the
execution price is at least the spot price; otherwise the floor of the
relative price difference in basis points (`Math.floor`). -/
def calculatePriceImpact (amountIn amountOut reserveIn reserveOut : ℚ) : ℤ :=
  if reserveIn ≤ 0 ∨ reserveOut ≤ 0 then 10000
  else
    let spotPrice := reserveOut / reserveIn
    let executionPrice := amountOut / amountIn
    if spotPrice ≤ executionPrice then 0
    else Int.floor ((spotPrice - executionPrice) / spotPrice * BASIS_POINTS)

end MathUtils

/-! ### Pool Cache (`src/backend/src/services/poolService.ts`) -/

/-- Coin descriptor nested inside `Pool` in
`src/backend/src/services/poolService.ts`. -/
structure CoinInfo where
  type : String
  name : String
  symbol : String
  decimals : ℕ
deriving DecidableEq, Repr

/-- The `Pool` record of `src/backend/src/services/poolService.ts`
(the optional `tvl`/`volume24h` display fields are omitted; no verified
claim reads them). Reserves are string-encoded decimals in the source and
are modelled as rationals. -/
structure Pool where
  poolAddress : String
  coinA : CoinInfo
  coinB : CoinInfo
  dexType : String
  reserveA : ℚ
  reserveB : ℚ
  feeRate : ℚ
  lastUpdated : ℕ
deriving DecidableEq, Repr

/-- Model of `Map.prototype.get`: first (unique) binding of the key. -/
def mapGet {α : Type} (m : List (String × α)) (k : String) : Option α :=
  (m.find? (fun p => p.1 == k)).map (fun p => p.2)

/-- Model of `Map.prototype.set`: replace the binding in place if the key is
present (JavaScript `Map` keeps the original insertion position),
otherwise append a new binding. -/
def mapSet {α : Type} (m : List (String × α)) (k : String) (v : α) :
    List (String × α) :=
  if (m.find? (fun p => p.1 == k)).isSome then
    m.map (fun p => if p.1 == k then (k, v) else p)
  else m ++ [(k, v)]

namespace PoolService

/-- Function `PoolService.getPairKey`: lexicographically smaller coin first,
joined with `":"`. -/
def getPairKey (coinA coinB : String) : String :=
  if coinA < coinB then coinA ++ ":" ++ coinB else coinB ++ ":" ++ coinA

/-- The mutable state of `PoolService`: the `pools` map keyed by address,
the `poolsByPair` index keyed by pair key, and `lastUpdateTime`.
JavaScript `Map`s are modelled as association lists in insertion order. -/
structure CacheState where
  pools : List (String × Pool)
  poolsByPair : List (String × List Pool)
  lastUpdateTime : ℕ
deriving DecidableEq, Repr

/-- Function `PoolService.getPoolsForPair`: look up the canonical pair key,
defaulting to the empty list. -/
def getPoolsForPair (s : CacheState) (coinA coinB : String) : List Pool :=
  (mapGet s.poolsByPair (getPairKey coinA coinB)).getD []

/-- Function `PoolService.getAllPools`: `Array.from(this.pools.values())`,
i.e. the values of the pool map in insertion order. -/
def getAllPools (s : CacheState) : List Pool :=
  s.pools.map (fun p => p.2)

/-- Function `PoolService.getPool`: point lookup by address. -/
def getPool (s : CacheState) (poolAddress : String) : Option Pool :=
  mapGet s.pools poolAddress

/-- One iteration of the indexing loop of `refreshAllPools`
(lines 81–90 of `poolService.ts`): `pools.set(address, pool)`, then
ensure the pair-key bucket exists, then push the pool onto it. -/
def indexPool (s : CacheState) (pool : Pool) : CacheState :=
  let pools := mapSet s.pools pool.poolAddress pool
  let pairKey := getPairKey pool.coinA.type pool.coinB.type
  let withBucket :=
    if (mapGet s.poolsByPair pairKey).isSome then s.poolsByPair
    else mapSet s.poolsByPair pairKey []
  let poolsByPair :=
    withBucket.map (fun p => if p.1 == pairKey then (p.1, p.2 ++ [pool]) else p)
  ⟨pools, poolsByPair, s.lastUpdateTime⟩

/-- Model of `this.pools.clear(); this.poolsByPair.clear()`
(lines 78–79 of `poolService.ts`). -/
def clearIndex (s : CacheState) : CacheState :=
  ⟨[], [], s.lastUpdateTime⟩

/-- The synchronous tail of `refreshAllPools` that runs after the last
`await` has resumed: clear both maps, index every fetched pool, then set
`lastUpdateTime` (lines 75–92 of `poolService.ts`). It contains no
suspension point, so on the JavaScript event loop it executes as one
atomic step. -/
def publishPools (allPools : List Pool) (now : ℕ) (s : CacheState) : CacheState :=
  let indexed := allPools.foldl indexPool (clearIndex s)
  ⟨indexed.pools, indexed.poolsByPair, now⟩

/-- The body of each `fetchCetusPools` / `fetchPancakePools` /
`fetchLiquidSwapPools` is wrapped in `try/catch` and returns `[]` when
the provider's fetch fails, so a provider outcome (success with a pool
list, or failure) always yields a pool list. -/
def fetchResult (outcome : Except Unit (List Pool)) : List Pool :=
  match outcome with
  | .ok pools => pools
  | .error _ => []

/-- Function `refreshAllPools` decomposed at its suspension points: the three
`await this.fetch…Pools()` calls do not touch the pool index (chunks
`id`), and everything after the last `await` — combining the fetched
lists and rebuilding the index — is one synchronous chunk. Readers
(`getAllPools`, `getPoolsForPair`, `getPool`) are synchronous and can
only run at the boundaries between chunks. -/
def refreshChunks (cetus pancake liquidSwap : Except Unit (List Pool))
    (now : ℕ) : List (CacheState → CacheState) :=
  [id, id, id,
   fun s => publishPools
     (fetchResult cetus ++ fetchResult pancake ++ fetchResult liquidSwap) now s]

/-- Run a prefix of the refresh's chunks over a starting state. -/
def runChunks (chunks : List (CacheState → CacheState)) (s : CacheState) :
    CacheState :=
  chunks.foldl (fun t f => f t) s

/-- The health report of `PoolService.getHealthStatus`. -/
structure HealthStatus where
  status : String
  poolCount : ℕ
  lastUpdate : ℕ
  timeSinceUpdate : ℤ
deriving DecidableEq, Repr

/-- Function `PoolService.getHealthStatus` (lines 273–289 of `poolService.ts`),
with `Date.now()` passed in as `now`. -/
def getHealthStatus (s : CacheState) (now : ℕ) : HealthStatus :=
  let timeSinceUpdate : ℤ := (now : ℤ) - (s.lastUpdateTime : ℤ)
  { status := if timeSinceUpdate < 60000 then "healthy" else "stale"
    poolCount := s.pools.length
    lastUpdate := s.lastUpdateTime
    timeSinceUpdate := timeSinceUpdate }

end PoolService

/-! ### SDK local route search (`src/sdk/src/router.ts`) -/

/-- One adjacency-list entry pushed by `buildPoolGraph`
(`{ coinOut, pool }`). -/
structure PoolEdge where
  coinOut : String
  pool : Pool
deriving DecidableEq, Repr

namespace AptosRouter

/-- Function `AptosRouter.findAllRoutes` (`src/sdk/src/router.ts` lines 273–313):
depth-first enumeration of paths from `coinIn` to `coinOut` over the
adjacency map `graph`. The hop-bound check `currentPath.length >=
maxHops` runs before the destination check; `visited` is copied per
branch (`new Set(visited)`), which the persistent list models directly. -/
def findAllRoutes (coinIn coinOut : String)
    (graph : List (String × List PoolEdge)) (maxHops : ℕ)
    (currentPath : List PoolEdge) (visited : List String) :
    List (List PoolEdge) :=
  if _hstop : maxHops ≤ currentPath.length then []
  else if coinIn = coinOut ∧ currentPath ≠ [] then [currentPath]
  else if coinIn ∈ visited then []
  else
    ((((mapGet graph coinIn).getD []).map (fun n =>
      if n.coinOut ∈ coinIn :: visited then []
      else findAllRoutes n.coinOut coinOut graph maxHops
        (currentPath ++ [n]) (coinIn :: visited))).flatten)
termination_by maxHops - currentPath.length
decreasing_by
  simp only [List.length_append, List.length_cons, List.length_nil]
  omega

end AptosRouter

/-! ### Routes and the best-route selectors
(`src/backend/src/services/routerService.ts` and `src/sdk/src/math.ts`) -/

/-- The `RouteStep` record of `routerService.ts`. String-encoded amounts
are modelled as rationals. -/
structure RouteStep where
  dexType : String
  coinIn : String
  coinOut : String
  poolAddress : String
  amountIn : ℚ
  amountOut : ℚ
  feeRate : ℚ
  priceImpact : ℚ
deriving DecidableEq, Repr

/-- The `Route` record of `routerService.ts` (also standing in for the
generic `T extends { amountOut: string; priceImpact: number }` of
`MathUtils.findBestRoute`, which only reads those two fields). -/
structure Route where
  steps : List RouteStep
  amountIn : ℚ
  amountOut : ℚ
  priceImpact : ℚ
  fee : ℚ
  estimatedGas : ℕ
deriving DecidableEq, Repr

/-- A route literal with the two fields the selectors read; the other
fields are zeroed. -/
def mkRoute (amountOut priceImpact : ℚ) : Route :=
  ⟨[], 0, amountOut, priceImpact, 0, 0⟩

/-- A pool literal for concrete witnesses. -/
def mkPool (addr coinA coinB : String) : Pool :=
  ⟨addr, ⟨coinA, "", "", 8⟩, ⟨coinB, "", "", 8⟩, "CETUS", 1000, 1000, 30, 0⟩

/-- Insert one element into an already-comparator-sorted list, keeping it
sorted with respect to `cmp · · ≤ 0` (an element goes before the first
element it compares `≤ 0` against). -/
def insertSorted (cmp : Route → Route → ℚ) (x : Route) : List Route → List Route
  | [] => [x]
  | y :: ys => if cmp x y ≤ 0 then x :: y :: ys else y :: insertSorted cmp x ys

/-- Model of `Array.prototype.sort(comparator)` as used by the selectors:
a stable comparator sort (ECMAScript requires the sort to be stable; for
a consistent comparator the stable result is unique, and the
counterexamples below only use inputs on which the comparator is a strict
total order, where every correct sort agrees). -/
def sortByCmp (cmp : Route → Route → ℚ) (l : List Route) : List Route :=
  l.foldr (insertSorted cmp) []

namespace RouterService

/-- The comparator of `RouterService.findBestRoute` (lines 75–81 of
`routerService.ts`): amount-out difference beyond `0.001` decides by
descending `amountOut`, otherwise ascending `priceImpact`. -/
def routeCmp (a b : Route) : ℚ :=
  if |b.amountOut - a.amountOut| > 1 / 1000 then
    (if 0 < b.amountOut - a.amountOut then 1 else -1)
  else a.priceImpact - b.priceImpact

/-- The `QuoteResponse` produced by `RouterService.findBestRoute`:
the best route plus alternative routes. -/
structure QuoteResponse where
  route : Route
  routes : List Route
deriving DecidableEq, Repr

/-- The route-selection part of `RouterService.findBestRoute`
(lines 69–91 of `routerService.ts`), applied to the already-priced
candidate list: `null` for an empty candidate set, otherwise the sorted
list's head as best and `sortedRoutes.slice(1, 5)` as alternatives. -/
def findBestRoute (allRoutes : List Route) : Option QuoteResponse :=
  if allRoutes.length = 0 then none
  else
    match sortByCmp routeCmp allRoutes with
    | [] => none
    | bestRoute :: rest => some ⟨bestRoute, rest.take 4⟩

end RouterService

namespace MathUtils

/-- The comparator of `MathUtils.findBestRoute` (`src/sdk/src/math.ts`
lines 183–192): the amount branch only runs when `prioritizeAmount`. -/
def findBestRouteCmp (prioritizeAmount : Bool) (a b : Route) : ℚ :=
  if prioritizeAmount = true ∧ |b.amountOut - a.amountOut| > 1 / 1000 then
    (if 0 < b.amountOut - a.amountOut then 1 else -1)
  else a.priceImpact - b.priceImpact

/-- Function `MathUtils.findBestRoute` from `src/sdk/src/math.ts`. The returned
pair is `(return value, contents of the caller's array after the call)`:
`routes.sort(...)` sorts the caller's array in place and the source's
`sorted` is an alias of `routes`, so for two or more elements the
caller's array ends up sorted. -/
def findBestRoute (routes : List Route) (prioritizeAmount : Bool) :
    Option Route × List Route :=
  if routes.length = 0 then (none, routes)
  else if routes.length = 1 then (routes.head?, routes)
  else
    let sorted := sortByCmp (findBestRouteCmp prioritizeAmount) routes
    (sorted.head?, sorted)

end MathUtils

/-! ### Theorems -/

section MathLemmas

open MathUtils

/-- On valid inputs `getAmountOut` succeeds and its value is the
constant-product formula. -/
theorem getAmountOut_eq (amountIn reserveIn reserveOut feeRateBp : ℚ)
    (ha : 0 < amountIn) (hri : 0 < reserveIn) (hro : 0 < reserveOut) :
    getAmountOut amountIn reserveIn reserveOut feeRateBp =
      some (amountAfterFee amountIn feeRateBp * reserveOut /
        (reserveIn + amountAfterFee amountIn feeRateBp)) := by
  unfold getAmountOut
  rw [if_neg]
  push_neg
  exact ⟨ha, hri, hro⟩

/-- The post-fee input amount is positive for a fee below 100%. -/
theorem amountAfterFee_pos (amountIn feeRateBp : ℚ)
    (ha : 0 < amountIn) (hf : feeRateBp < 10000) :
    0 < amountAfterFee amountIn feeRateBp := by
  unfold amountAfterFee calculateFee BASIS_POINTS
  have h1 : feeRateBp / 10000 < 1 := (div_lt_one (by norm_num)).mpr hf
  nlinarith

/-- The raw constant-product output value is strictly below the output
reserve whenever the post-fee input and both reserves are positive. -/
theorem outVal_lt_reserveOut (xf reserveIn reserveOut : ℚ)
    (hxf : 0 < xf) (hri : 0 < reserveIn) (hro : 0 < reserveOut) :
    xf * reserveOut / (reserveIn + xf) < reserveOut := by
  rw [div_lt_iff (by linarith : (0:ℚ) < reserveIn + xf)]
  nlinarith

/-- The raw constant-product output value is strictly increasing in the
post-fee input amount. -/
theorem outVal_strictMono (t₁ t₂ reserveIn reserveOut : ℚ)
    (ht₁ : 0 < t₁) (hlt : t₁ < t₂) (hri : 0 < reserveIn) (hro : 0 < reserveOut) :
    t₁ * reserveOut / (reserveIn + t₁) < t₂ * reserveOut / (reserveIn + t₂) := by
  rw [div_lt_div_iff (by linarith : (0:ℚ) < reserveIn + t₁)
    (by linarith : (0:ℚ) < reserveIn + t₂)]
  nlinarith [mul_lt_mul_of_pos_right hlt (mul_pos hro hri)]

/-- Helper: `amountAfterFee` is strictly increasing in the amount when the fee is
below 100%. -/
theorem amountAfterFee_strictMono (a₁ a₂ feeRateBp : ℚ)
    (hlt : a₁ < a₂) (hf : feeRateBp < 10000) :
    amountAfterFee a₁ feeRateBp < amountAfterFee a₂ feeRateBp := by
  unfold amountAfterFee calculateFee BASIS_POINTS
  have h1 : feeRateBp / 10000 < 1 := (div_lt_one (by norm_num)).mpr hf
  nlinarith

/-- C2: for every valid input (`amountIn > 0`, `reserveIn > 0`,
`reserveOut > 0`, `0 ≤ feeRateBp < 10000`), `MathUtils.getAmountOut`
succeeds with a value strictly less than `reserveOut`, and for fixed
reserves and fee it is strictly increasing in `amountIn`. -/
theorem claim_C2_getAmountOut_lt_reserve_strictMono
    (amountIn₁ amountIn₂ reserveIn reserveOut feeRateBp : ℚ)
    (h₁ : 0 < amountIn₁) (h₂ : 0 < amountIn₂)
    (hri : 0 < reserveIn) (hro : 0 < reserveOut)
    (hf0 : 0 ≤ feeRateBp) (hf : feeRateBp < 10000) :
    (∀ y, getAmountOut amountIn₁ reserveIn reserveOut feeRateBp = some y →
      y < reserveOut) ∧
    (amountIn₁ < amountIn₂ →
      ∀ y₁ y₂, getAmountOut amountIn₁ reserveIn reserveOut feeRateBp = some y₁ →
        getAmountOut amountIn₂ reserveIn reserveOut feeRateBp = some y₂ →
        y₁ < y₂) := by
  have hxf₁ : 0 < amountAfterFee amountIn₁ feeRateBp := amountAfterFee_pos _ _ h₁ hf
  constructor
  · intro y hy
    rw [getAmountOut_eq _ _ _ _ h₁ hri hro] at hy
    cases hy
    exact outVal_lt_reserveOut _ _ _ hxf₁ hri hro
  · intro hlt y₁ y₂ hy₁ hy₂
    rw [getAmountOut_eq _ _ _ _ h₁ hri hro] at hy₁
    rw [getAmountOut_eq _ _ _ _ h₂ hri hro] at hy₂
    cases hy₁
    cases hy₂
    exact outVal_strictMono _ _ _ _ hxf₁
      (amountAfterFee_strictMono _ _ _ hlt hf) hri hro

/-- Witness for C2 at the spec's own example point
`getAmountOut(100, 1000, 2000, 30)` (and a second amount `200`). -/
theorem claim_C2_witness :
    getAmountOut 100 1000 2000 30 = some (1994000 / 10997) ∧
    ((∀ y, getAmountOut 100 1000 2000 30 = some y → y < 2000) ∧
     ((100:ℚ) < 200 →
      ∀ y₁ y₂, getAmountOut 100 1000 2000 30 = some y₁ →
        getAmountOut 200 1000 2000 30 = some y₂ → y₁ < y₂)) := by
  constructor
  · rw [getAmountOut_eq 100 1000 2000 30 (by norm_num) (by norm_num) (by norm_num)]
    norm_num [amountAfterFee, calculateFee, BASIS_POINTS]
  · exact claim_C2_getAmountOut_lt_reserve_strictMono 100 200 1000 2000 30
      (by norm_num) (by norm_num) (by norm_num) (by norm_num)
      (by norm_num) (by norm_num)

/-- C1: for every valid input (`x > 0`, `reserveIn > 0`, `reserveOut > 0`,
`0 ≤ feeRateBp < 10000`), `getAmountOut` succeeds, its value is a valid
`amountOut` for `getAmountIn`, and the composition satisfies
`getAmountIn (getAmountOut x) ≥ x`: the required-input quote is never
under-quoted. -/
theorem claim_C1_getAmountIn_getAmountOut_ge
    (x reserveIn reserveOut feeRateBp : ℚ)
    (hx : 0 < x) (hri : 0 < reserveIn) (hro : 0 < reserveOut)
    (hf0 : 0 ≤ feeRateBp) (hf : feeRateBp < 10000) :
    ∃ y z, getAmountOut x reserveIn reserveOut feeRateBp = some y ∧
      getAmountIn y reserveIn reserveOut feeRateBp = some z ∧ x ≤ z := by
  have hxf : 0 < amountAfterFee x feeRateBp := amountAfterFee_pos _ _ hx hf
  set xf := amountAfterFee x feeRateBp with hxf_def
  have hden : (0:ℚ) < reserveIn + xf := by linarith
  set y := xf * reserveOut / (reserveIn + xf) with hy_def
  have hy_pos : 0 < y := div_pos (mul_pos hxf hro) hden
  have hy_lt : y < reserveOut := outVal_lt_reserveOut _ _ _ hxf hri hro
  have hrest : (0:ℚ) < reserveOut - y := by linarith
  have hfne : (10000:ℚ) - feeRateBp ≠ 0 := by linarith
  refine ⟨y, (reserveIn * y / (reserveOut - y) + 1) * BASIS_POINTS /
      (BASIS_POINTS - feeRateBp), ?_, ?_, ?_⟩
  · exact getAmountOut_eq _ _ _ _ hx hri hro
  · unfold getAmountIn
    rw [if_neg (by push_neg; exact ⟨hy_pos, hri, hro⟩), if_neg (by linarith)]
  · have hsub : reserveOut - y = reserveOut * reserveIn / (reserveIn + xf) := by
      rw [hy_def]
      field_simp
      ring
    have hfrac : reserveIn * y / (reserveOut - y) = xf := by
      rw [hsub, hy_def]
      field_simp
      ring
    rw [hfrac]
    have hval : (xf + 1) * BASIS_POINTS / (BASIS_POINTS - feeRateBp) =
        x + 10000 / (10000 - feeRateBp) := by
      rw [hxf_def]
      unfold amountAfterFee calculateFee BASIS_POINTS
      field_simp
      ring
    rw [hval]
    have hpos : 0 < (10000:ℚ) / (10000 - feeRateBp) :=
      div_pos (by norm_num) (by linarith)
    linarith

/-- Witness for C1 at `x = 100`, reserves `1000` and `2000`, fee `30`. -/
theorem claim_C1_witness :
    ∃ y z, getAmountOut 100 1000 2000 30 = some y ∧
      getAmountIn y 1000 2000 30 = some z ∧ 100 ≤ z :=
  claim_C1_getAmountIn_getAmountOut_ge 100 1000 2000 30
    (by norm_num) (by norm_num) (by norm_num) (by norm_num) (by norm_num)

/-- C3 counterexample: `calculatePriceImpact(1, -1, 1, 1)` evaluates to
`20000`, outside the claimed range `[0, 10000]` — the code never clamps
its result, so a negative `amountOut` drives the returned impact above
`10000`. -/
theorem claim_C3_counterexample :
    calculatePriceImpact 1 (-1) 1 1 = 20000 ∧
    ¬ calculatePriceImpact 1 (-1) 1 1 ≤ 10000 := by
  have h : calculatePriceImpact 1 (-1) 1 1 = 20000 := by
    unfold calculatePriceImpact BASIS_POINTS
    norm_num
  exact ⟨h, by rw [h]; norm_num⟩

/-- C3 (amended): for every input with `amountIn > 0` and `amountOut ≥ 0`,
`calculatePriceImpact` returns `10000` if either reserve is non-positive;
otherwise with `spotPrice = reserveOut/reserveIn` and
`executionPrice = amountOut/amountIn` it returns `0` when
`executionPrice ≥ spotPrice` and otherwise
`floor(((spotPrice - executionPrice)/spotPrice) * 10000)`; under these
hypotheses the returned value lies in `[0, 10000]`. -/
theorem claim_C3_priceImpact_amended
    (amountIn amountOut reserveIn reserveOut : ℚ)
    (hin : 0 < amountIn) (hout : 0 ≤ amountOut) :
    (reserveIn ≤ 0 ∨ reserveOut ≤ 0 →
      calculatePriceImpact amountIn amountOut reserveIn reserveOut = 10000) ∧
    (0 < reserveIn → 0 < reserveOut →
      (reserveOut / reserveIn ≤ amountOut / amountIn →
        calculatePriceImpact amountIn amountOut reserveIn reserveOut = 0) ∧
      (amountOut / amountIn < reserveOut / reserveIn →
        calculatePriceImpact amountIn amountOut reserveIn reserveOut =
          Int.floor ((reserveOut / reserveIn - amountOut / amountIn) /
            (reserveOut / reserveIn) * 10000))) ∧
    (0 ≤ calculatePriceImpact amountIn amountOut reserveIn reserveOut ∧
      calculatePriceImpact amountIn amountOut reserveIn reserveOut ≤ 10000) := by
  unfold calculatePriceImpact
  by_cases hres : reserveIn ≤ 0 ∨ reserveOut ≤ 0
  · rw [if_pos hres]
    refine ⟨fun _ => rfl, fun h1 h2 => absurd hres (by push_neg; exact ⟨h1, h2⟩),
      by norm_num, by norm_num⟩
  · rw [if_neg hres]
    push_neg at hres
    obtain ⟨hri, hro⟩ := hres
    have hspot : 0 < reserveOut / reserveIn := div_pos hro hri
    have hexec : 0 ≤ amountOut / amountIn := div_nonneg hout hin.le
    refine ⟨fun h => absurd h (by push_neg; exact ⟨hri, hro⟩), ?_, ?_, ?_⟩
    · intro _ _
      constructor
      · intro hle
        rw [if_pos hle]
      · intro hlt
        rw [if_neg (not_le.mpr hlt)]
        norm_num [BASIS_POINTS]
    · by_cases hle : reserveOut / reserveIn ≤ amountOut / amountIn
      · rw [if_pos hle]
      · rw [if_neg hle]
        push_neg at hle
        have harg : 0 ≤ (reserveOut / reserveIn - amountOut / amountIn) /
            (reserveOut / reserveIn) * BASIS_POINTS := by
          have h1 : 0 ≤ (reserveOut / reserveIn - amountOut / amountIn) /
              (reserveOut / reserveIn) := div_nonneg (by linarith) hspot.le
          unfold BASIS_POINTS
          positivity
        exact Int.floor_nonneg.mpr harg
    · by_cases hle : reserveOut / reserveIn ≤ amountOut / amountIn
      · rw [if_pos hle]; norm_num
      · rw [if_neg hle]
        push_neg at hle
        have hratio : (reserveOut / reserveIn - amountOut / amountIn) /
            (reserveOut / reserveIn) ≤ 1 :=
          (div_le_one hspot).mpr (by linarith)
        have harg : (reserveOut / reserveIn - amountOut / amountIn) /
            (reserveOut / reserveIn) * BASIS_POINTS ≤ ((10000 : ℤ) : ℚ) := by
          unfold BASIS_POINTS
          push_cast
          nlinarith
        calc Int.floor ((reserveOut / reserveIn - amountOut / amountIn) /
              (reserveOut / reserveIn) * BASIS_POINTS)
            ≤ Int.floor (((10000 : ℤ) : ℚ)) := Int.floor_le_floor harg
          _ = 10000 := Int.floor_intCast 10000

/-- Witness for the amended C3 at `amountIn = 100`, `amountOut = 50`,
`reserveIn = 1000`, `reserveOut = 2000`. -/
theorem claim_C3_amended_witness :
    ((1000:ℚ) ≤ 0 ∨ (2000:ℚ) ≤ 0 →
      calculatePriceImpact 100 50 1000 2000 = 10000) ∧
    ((0:ℚ) < 1000 → (0:ℚ) < 2000 →
      ((2000:ℚ) / 1000 ≤ (50:ℚ) / 100 →
        calculatePriceImpact 100 50 1000 2000 = 0) ∧
      ((50:ℚ) / 100 < (2000:ℚ) / 1000 →
        calculatePriceImpact 100 50 1000 2000 =
          Int.floor (((2000:ℚ) / 1000 - 50 / 100) / (2000 / 1000) * 10000))) ∧
    (0 ≤ calculatePriceImpact 100 50 1000 2000 ∧
      calculatePriceImpact 100 50 1000 2000 ≤ 10000) :=
  claim_C3_priceImpact_amended 100 50 1000 2000 (by norm_num) (by norm_num)

/-- C7 counterexample: `calculateMinOutput(1000, 20000)` does not fail on
the out-of-range tolerance `20000 > 10000`; it silently returns the
negative value `-1000` (and `calculateMaxInput(1000, 20000)` silently
returns `3000`). -/
theorem claim_C7_counterexample :
    calculateMinOutput 1000 20000 = -1000 ∧
    calculateMinOutput 1000 20000 < 0 ∧
    calculateMaxInput 1000 20000 = 3000 := by
  norm_num [calculateMinOutput, calculateMaxInput, BASIS_POINTS]

/-- C7 (amended): `calculateMinOutput` and `calculateMaxInput` never fail:
they are total basis-point scalings equal to `amount*(10000 ∓ tol)/10000`
for every input, and when the tolerance exceeds `10000` and the amount is
positive, `calculateMinOutput` silently returns a negative value instead
of failing. -/
theorem claim_C7_no_validation_amended (amount slippageToleranceBp : ℚ) :
    calculateMinOutput amount slippageToleranceBp =
      amount * (10000 - slippageToleranceBp) / 10000 ∧
    calculateMaxInput amount slippageToleranceBp =
      amount * (10000 + slippageToleranceBp) / 10000 ∧
    (0 < amount → 10000 < slippageToleranceBp →
      calculateMinOutput amount slippageToleranceBp < 0) := by
  refine ⟨?_, ?_, ?_⟩
  · unfold calculateMinOutput BASIS_POINTS
    field_simp
    ring
  · unfold calculateMaxInput BASIS_POINTS
    field_simp
    ring
  · intro hamt htol
    unfold calculateMinOutput BASIS_POINTS
    nlinarith

/-- Witness for the amended C7 at `amount = 1000`, tolerance `20000`. -/
theorem claim_C7_amended_witness :
    calculateMinOutput 1000 20000 = (1000:ℚ) * (10000 - 20000) / 10000 ∧
    calculateMaxInput 1000 20000 = (1000:ℚ) * (10000 + 20000) / 10000 ∧
    ((0:ℚ) < 1000 → (10000:ℚ) < 20000 → calculateMinOutput 1000 20000 < 0) :=
  claim_C7_no_validation_amended 1000 20000

end MathLemmas

namespace PoolService

/-- The pair key is symmetric in its two arguments. -/
theorem getPairKey_symm (a b : String) : getPairKey a b = getPairKey b a := by
  unfold getPairKey
  rcases lt_trichotomy a b with h | h | h
  · rw [if_pos h, if_neg (asymm h)]
  · subst h
    rfl
  · rw [if_neg (asymm h), if_pos h]

/-- C8: for every pair of coin identifiers and every cache state,
`getPoolsForPair(A, B)` and `getPoolsForPair(B, A)` return the identical
pool list — the lookup goes through the canonical lexicographic pair
key, which is symmetric under argument swap. -/
theorem claim_C8_getPoolsForPair_symm (s : CacheState) (coinA coinB : String) :
    getPoolsForPair s coinA coinB = getPoolsForPair s coinB coinA := by
  unfold getPoolsForPair
  rw [getPairKey_symm]

end PoolService

theorem insertSorted_perm (cmp : Route → Route → ℚ) (x : Route) (l : List Route) :
    (insertSorted cmp x l).Perm (x :: l) := by
  induction l with
  | nil => exact List.Perm.refl _
  | cons y ys ih =>
    rw [insertSorted]
    by_cases h : cmp x y ≤ 0
    · rw [if_pos h]
    · rw [if_neg h]
      exact (ih.cons y).trans (List.Perm.swap x y ys)

theorem sortByCmp_perm (cmp : Route → Route → ℚ) (l : List Route) :
    (sortByCmp cmp l).Perm l := by
  induction l with
  | nil => exact List.Perm.refl _
  | cons x xs ih => exact (insertSorted_perm cmp x (sortByCmp cmp xs)).trans (ih.cons x)

theorem insertSorted_chain' (cmp : Route → Route → ℚ)
    (htot : ∀ a b, cmp a b ≤ 0 ∨ cmp b a ≤ 0) (x : Route) (l : List Route)
    (hl : l.Chain' (fun a b => cmp a b ≤ 0)) :
    (insertSorted cmp x l).Chain' (fun a b => cmp a b ≤ 0) := by
  induction l with
  | nil => simp [insertSorted]
  | cons y ys ih =>
    rw [insertSorted]
    by_cases h : cmp x y ≤ 0
    · rw [if_pos h]
      exact List.chain'_cons.mpr ⟨h, hl⟩
    · rw [if_neg h]
      have hyx : cmp y x ≤ 0 := (htot x y).resolve_left h
      have hins := ih hl.tail
      refine List.chain'_cons'.mpr ⟨?_, hins⟩
      intro z hz
      cases ys with
      | nil =>
        simp only [insertSorted, List.head?_cons, Option.mem_def,
          Option.some.injEq] at hz
        subst hz
        exact hyx
      | cons w ws =>
        rw [insertSorted] at hz
        by_cases hxw : cmp x w ≤ 0
        · rw [if_pos hxw] at hz
          simp only [List.head?_cons, Option.mem_def, Option.some.injEq] at hz
          subst hz
          exact hyx
        · rw [if_neg hxw] at hz
          simp only [List.head?_cons, Option.mem_def, Option.some.injEq] at hz
          subst hz
          exact (List.chain'_cons.mp hl).1

theorem sortByCmp_chain' (cmp : Route → Route → ℚ)
    (htot : ∀ a b, cmp a b ≤ 0 ∨ cmp b a ≤ 0) (l : List Route) :
    (sortByCmp cmp l).Chain' (fun a b => cmp a b ≤ 0) := by
  induction l with
  | nil => simp [sortByCmp]
  | cons x xs ih => exact insertSorted_chain' cmp htot x (sortByCmp cmp xs) ih

namespace RouterService

theorem routeCmp_total (a b : Route) : routeCmp a b ≤ 0 ∨ routeCmp b a ≤ 0 := by
  unfold routeCmp
  by_cases h : |b.amountOut - a.amountOut| > 1 / 1000
  · have h' : |a.amountOut - b.amountOut| > 1 / 1000 := by rwa [abs_sub_comm]
    rw [if_pos h, if_pos h']
    by_cases hd : 0 < b.amountOut - a.amountOut
    · right
      rw [if_neg (show ¬ 0 < a.amountOut - b.amountOut by intro hc; linarith)]
      norm_num
    · left
      rw [if_neg hd]
      norm_num
  · have h' : ¬ |a.amountOut - b.amountOut| > 1 / 1000 := by rwa [abs_sub_comm]
    rw [if_neg h, if_neg h']
    rcases le_total a.priceImpact b.priceImpact with hle | hle
    · left; linarith
    · right; linarith

end RouterService

/-- C4 counterexample: six candidate routes whose top two amounts differ
by exactly `0.001`. The claim (ties only below `0.001`, five
alternatives) predicts best `mkRoute (2001/1000) 9` with five
alternatives; the code treats the exact-`0.001` difference as a tie
(`.gt(0.001)` is false), picks `mkRoute 2 1` by lower price impact, and
`slice(1, 5)` keeps only four alternatives. -/
theorem claim_C4_counterexample :
    RouterService.findBestRoute
        [mkRoute 2 1, mkRoute (2001/1000) 9, mkRoute 1 2,
         mkRoute (9/10) 3, mkRoute (8/10) 4, mkRoute (7/10) 5] =
      some ⟨mkRoute 2 1,
        [mkRoute (2001/1000) 9, mkRoute 1 2, mkRoute (9/10) 3,
         mkRoute (8/10) 4]⟩ ∧
    RouterService.findBestRoute
        [mkRoute 2 1, mkRoute (2001/1000) 9, mkRoute 1 2,
         mkRoute (9/10) 3, mkRoute (8/10) 4, mkRoute (7/10) 5] ≠
      some ⟨mkRoute (2001/1000) 9,
        [mkRoute 2 1, mkRoute 1 2, mkRoute (9/10) 3,
         mkRoute (8/10) 4, mkRoute (7/10) 5]⟩ := by
  norm_num [RouterService.findBestRoute, sortByCmp, insertSorted,
    RouterService.routeCmp, mkRoute, abs_of_nonneg, abs_of_nonpos]

/-- C4 (amended): the selector sorts the candidates with the comparator
that puts the strictly larger `amountOut` first when the two amounts
differ by more than `0.001` and otherwise (including a difference of
exactly `0.001`) orders by ascending `priceImpact`; because this tie
relation is not transitive, the ordering guarantee is between
consecutive entries of the sorted result. It returns the sorted head as
the best route and up to 4 (not 5: `slice(1, 5)`) of the remaining
routes as alternatives in that same order; an empty candidate set yields
the explicit no-route `null`, not an error. -/
theorem claim_C4_routeSelector_amended (allRoutes : List Route) :
    (allRoutes = [] → RouterService.findBestRoute allRoutes = none) ∧
    (allRoutes ≠ [] → ∃ best rest,
      sortByCmp RouterService.routeCmp allRoutes = best :: rest ∧
      RouterService.findBestRoute allRoutes = some ⟨best, rest.take 4⟩ ∧
      (best :: rest).Perm allRoutes ∧
      (best :: rest).Chain' (fun a b => RouterService.routeCmp a b ≤ 0)) := by
  constructor
  · intro h
    subst h
    rfl
  · intro hne
    have hperm := sortByCmp_perm RouterService.routeCmp allRoutes
    have hchain := sortByCmp_chain' RouterService.routeCmp
      RouterService.routeCmp_total allRoutes
    cases hsort : sortByCmp RouterService.routeCmp allRoutes with
    | nil =>
      rw [hsort] at hperm
      exact absurd hperm.symm.eq_nil hne
    | cons best rest =>
      refine ⟨best, rest, rfl, ?_, ?_, ?_⟩
      · unfold RouterService.findBestRoute
        rw [if_neg (by simpa using hne), hsort]
      · rw [← hsort]
        exact hperm
      · rw [← hsort]
        exact hchain

/-- Witness for the amended C4 on a concrete two-candidate set. -/
theorem claim_C4_amended_witness :
    ([mkRoute 1 0, mkRoute 2 0] = ([] : List Route) →
      RouterService.findBestRoute [mkRoute 1 0, mkRoute 2 0] = none) ∧
    ([mkRoute 1 0, mkRoute 2 0] ≠ ([] : List Route) → ∃ best rest,
      sortByCmp RouterService.routeCmp [mkRoute 1 0, mkRoute 2 0] = best :: rest ∧
      RouterService.findBestRoute [mkRoute 1 0, mkRoute 2 0] =
        some ⟨best, rest.take 4⟩ ∧
      (best :: rest).Perm [mkRoute 1 0, mkRoute 2 0] ∧
      (best :: rest).Chain' (fun a b => RouterService.routeCmp a b ≤ 0)) :=
  claim_C4_routeSelector_amended [mkRoute 1 0, mkRoute 2 0]

/-- C9 counterexample: after calling `MathUtils.findBestRoute` on the
two-element array `[mkRoute 1 0, mkRoute 2 0]`, the caller's array holds
`[mkRoute 2 0, mkRoute 1 0]` — the in-place sort reordered it, so the
function is not free of side effects on its argument. -/
theorem claim_C9_counterexample :
    (MathUtils.findBestRoute [mkRoute 1 0, mkRoute 2 0] true).2 ≠
      [mkRoute 1 0, mkRoute 2 0] ∧
    (MathUtils.findBestRoute [mkRoute 1 0, mkRoute 2 0] true).2 =
      [mkRoute 2 0, mkRoute 1 0] := by
  norm_num [MathUtils.findBestRoute, MathUtils.findBestRouteCmp, sortByCmp,
    insertSorted, mkRoute, abs_of_nonneg, abs_of_nonpos]

/-- C9 (amended): `MathUtils.findBestRoute`'s return value is determined
solely by its arguments, and it always returns the head of the final
array contents; but it mutates the caller's array by sorting it in
place: the final contents are a permutation of the original, guaranteed
unchanged only when the array has at most one element. -/
theorem claim_C9_findBestRoute_amended (routes : List Route)
    (prioritizeAmount : Bool) :
    ((MathUtils.findBestRoute routes prioritizeAmount).2).Perm routes ∧
    (MathUtils.findBestRoute routes prioritizeAmount).1 =
      ((MathUtils.findBestRoute routes prioritizeAmount).2).head? ∧
    (routes.length ≤ 1 →
      (MathUtils.findBestRoute routes prioritizeAmount).2 = routes) := by
  unfold MathUtils.findBestRoute
  by_cases h0 : routes.length = 0
  · rw [if_pos h0]
    have hnil : routes = [] := List.length_eq_zero.mp h0
    subst hnil
    exact ⟨List.Perm.refl _, rfl, fun _ => rfl⟩
  · rw [if_neg h0]
    by_cases h1 : routes.length = 1
    · rw [if_pos h1]
      exact ⟨List.Perm.refl _, rfl, fun _ => rfl⟩
    · rw [if_neg h1]
      refine ⟨sortByCmp_perm _ routes, rfl, ?_⟩
      intro hle
      omega

/-- Witness for the amended C9 on a concrete two-element array. -/
theorem claim_C9_amended_witness :
    ((MathUtils.findBestRoute [mkRoute 1 0, mkRoute 2 0] true).2).Perm
      [mkRoute 1 0, mkRoute 2 0] ∧
    (MathUtils.findBestRoute [mkRoute 1 0, mkRoute 2 0] true).1 =
      ((MathUtils.findBestRoute [mkRoute 1 0, mkRoute 2 0] true).2).head? ∧
    (([mkRoute 1 0, mkRoute 2 0] : List Route).length ≤ 1 →
      (MathUtils.findBestRoute [mkRoute 1 0, mkRoute 2 0] true).2 =
        [mkRoute 1 0, mkRoute 2 0]) :=
  claim_C9_findBestRoute_amended [mkRoute 1 0, mkRoute 2 0] true

/-! ### Refresh atomicity and provider-failure tolerance -/

/-- The `pools` component of the indexing fold only depends on the
`pools.set` part of each iteration. -/
theorem foldl_indexPool_pools (ps : List Pool) (s : PoolService.CacheState) :
    (ps.foldl PoolService.indexPool s).pools =
      ps.foldl (fun m p => mapSet m p.poolAddress p) s.pools := by
  induction ps generalizing s with
  | nil => rfl
  | cons p ps ih =>
    rw [List.foldl_cons, List.foldl_cons, ih]
    rfl

/-- Folding `Map.set` over pools whose addresses are fresh and mutually
distinct appends one binding per pool, in order. -/
theorem foldl_mapSet_disjoint (ps : List Pool) (m : List (String × Pool))
    (hdisj : ∀ p ∈ ps, ∀ q ∈ m, q.1 ≠ p.poolAddress)
    (hnd : (ps.map (fun p => p.poolAddress)).Nodup) :
    ps.foldl (fun m p => mapSet m p.poolAddress p) m =
      m ++ ps.map (fun p => (p.poolAddress, p)) := by
  induction ps generalizing m with
  | nil => simp
  | cons p ps ih =>
    rw [List.foldl_cons]
    have hfind : m.find? (fun q => q.1 == p.poolAddress) = none := by
      rw [List.find?_eq_none]
      intro q hq
      simpa using hdisj p (List.mem_cons_self p ps) q hq
    have hset : mapSet m p.poolAddress p = m ++ [(p.poolAddress, p)] := by
      unfold mapSet
      rw [hfind]
      simp
    rw [hset, ih]
    · simp
    · intro p' hp' q hq
      rcases List.mem_append.mp hq with hqm | hqp
      · exact hdisj p' (List.mem_cons_of_mem p hp') q hqm
      · have hq1 : q.1 = p.poolAddress := by
          simp only [List.mem_singleton] at hqp
          rw [hqp]
        rw [hq1]
        have hhead : p.poolAddress ∉ ps.map (fun p => p.poolAddress) :=
          (List.nodup_cons.mp (by simpa using hnd)).1
        intro hcontra
        exact hhead (hcontra ▸ List.mem_map_of_mem (fun p => p.poolAddress) hp')
    · exact (List.nodup_cons.mp (by simpa using hnd)).2

/-- After `publishPools`, reading all pools gives back exactly the
fetched pool list (when the fetched addresses are distinct). -/
theorem publishPools_getAllPools (ps : List Pool) (now : ℕ)
    (s : PoolService.CacheState)
    (hnd : (ps.map (fun p => p.poolAddress)).Nodup) :
    PoolService.getAllPools (PoolService.publishPools ps now s) = ps := by
  have h1 : (PoolService.publishPools ps now s).pools =
      ps.foldl (fun m p => mapSet m p.poolAddress p) [] := by
    rw [show (PoolService.publishPools ps now s).pools =
      (ps.foldl PoolService.indexPool (PoolService.clearIndex s)).pools from rfl]
    rw [foldl_indexPool_pools]
    rfl
  unfold PoolService.getAllPools
  rw [h1, foldl_mapSet_disjoint ps [] (by intro p hp q hq; simp at hq) hnd]
  rw [List.nil_append, List.map_map]
  exact List.map_id ps

/-- C5: the only chunk of `refreshAllPools` that touches the pool index
is the synchronous clear-and-rebuild tail after the last `await`; at
every chunk boundary — the only points where the event loop can run a
reader — the cache state is either exactly the pre-refresh state or
exactly the fully built post-refresh state, so `getAllPools`,
`getPoolsForPair` and `getPool` never observe an empty or
partially-populated index. -/
theorem claim_C5_refresh_atomic_snapshot
    (cetus pancake liquidSwap : Except Unit (List Pool)) (now : ℕ)
    (s₀ : PoolService.CacheState) (k : ℕ)
    (hk : k ≤ (PoolService.refreshChunks cetus pancake liquidSwap now).length) :
    PoolService.runChunks
        ((PoolService.refreshChunks cetus pancake liquidSwap now).take k) s₀ =
      s₀ ∨
    PoolService.runChunks
        ((PoolService.refreshChunks cetus pancake liquidSwap now).take k) s₀ =
      PoolService.publishPools
        (PoolService.fetchResult cetus ++ PoolService.fetchResult pancake ++
          PoolService.fetchResult liquidSwap) now s₀ := by
  have hlen : (PoolService.refreshChunks cetus pancake liquidSwap now).length = 4 :=
    rfl
  rw [hlen] at hk
  interval_cases k
  · exact Or.inl rfl
  · exact Or.inl rfl
  · exact Or.inl rfl
  · exact Or.inl rfl
  · exact Or.inr rfl

/-- Witness for C5: reading two chunks into a refresh over the empty
initial cache observes one of the two complete snapshots. -/
theorem claim_C5_witness :
    PoolService.runChunks
        ((PoolService.refreshChunks (Except.ok []) (Except.ok [])
          (Except.ok []) 5).take 2) ⟨[], [], 0⟩ =
      (⟨[], [], 0⟩ : PoolService.CacheState) ∨
    PoolService.runChunks
        ((PoolService.refreshChunks (Except.ok []) (Except.ok [])
          (Except.ok []) 5).take 2) ⟨[], [], 0⟩ =
      PoolService.publishPools
        (PoolService.fetchResult (Except.ok []) ++
          PoolService.fetchResult (Except.ok []) ++
          PoolService.fetchResult (Except.ok [])) 5 ⟨[], [], 0⟩ :=
  claim_C5_refresh_atomic_snapshot (Except.ok []) (Except.ok [])
    (Except.ok []) 5 ⟨[], [], 0⟩ 2 (by decide)

/-- C6: when the middle provider's fetch fails and the other two succeed
(with pools at distinct addresses), the refresh still completes and
publishes exactly the union of the succeeding providers' pools; the
health status then reports that pool count — nonzero whenever the union
is non-empty. -/
theorem claim_C6_provider_failure_non_fatal
    (ps1 ps3 : List Pool) (now : ℕ) (s₀ : PoolService.CacheState)
    (hnd : ((ps1 ++ ps3).map (fun p => p.poolAddress)).Nodup) :
    PoolService.getAllPools
        (PoolService.runChunks
          (PoolService.refreshChunks (Except.ok ps1) (Except.error ())
            (Except.ok ps3) now) s₀) = ps1 ++ ps3 ∧
    (PoolService.getHealthStatus
        (PoolService.runChunks
          (PoolService.refreshChunks (Except.ok ps1) (Except.error ())
            (Except.ok ps3) now) s₀) now).poolCount = (ps1 ++ ps3).length ∧
    (ps1 ++ ps3 ≠ [] →
      (PoolService.getHealthStatus
        (PoolService.runChunks
          (PoolService.refreshChunks (Except.ok ps1) (Except.error ())
            (Except.ok ps3) now) s₀) now).poolCount ≠ 0) := by
  have hrun : PoolService.runChunks
      (PoolService.refreshChunks (Except.ok ps1) (Except.error ())
        (Except.ok ps3) now) s₀ =
      PoolService.publishPools (ps1 ++ ps3) now s₀ := by
    show PoolService.publishPools (ps1 ++ ([] : List Pool) ++ ps3) now s₀ =
      PoolService.publishPools (ps1 ++ ps3) now s₀
    rw [List.append_nil]
  have hcount : (PoolService.getHealthStatus
      (PoolService.publishPools (ps1 ++ ps3) now s₀) now).poolCount =
      (ps1 ++ ps3).length := by
    show (PoolService.publishPools (ps1 ++ ps3) now s₀).pools.length =
      (ps1 ++ ps3).length
    rw [show (PoolService.publishPools (ps1 ++ ps3) now s₀).pools =
      ((ps1 ++ ps3).foldl PoolService.indexPool
        (PoolService.clearIndex s₀)).pools from rfl]
    rw [foldl_indexPool_pools,
      show (PoolService.clearIndex s₀).pools = ([] : List (String × Pool))
        from rfl,
      foldl_mapSet_disjoint (ps1 ++ ps3) [] (by intro p hp q hq; simp at hq) hnd]
    simp
  refine ⟨?_, ?_, ?_⟩
  · rw [hrun]
    exact publishPools_getAllPools (ps1 ++ ps3) now s₀ hnd
  · rw [hrun]
    exact hcount
  · intro hne
    rw [hrun, hcount]
    intro h0
    exact hne (List.length_eq_zero.mp h0)

/-- Witness for C6 with one pool from each succeeding provider. -/
theorem claim_C6_witness :
    PoolService.getAllPools
        (PoolService.runChunks
          (PoolService.refreshChunks (Except.ok [mkPool "0x1" "A" "B"])
            (Except.error ()) (Except.ok [mkPool "0x2" "B" "C"]) 5) ⟨[], [], 0⟩) =
      [mkPool "0x1" "A" "B"] ++ [mkPool "0x2" "B" "C"] ∧
    (PoolService.getHealthStatus
        (PoolService.runChunks
          (PoolService.refreshChunks (Except.ok [mkPool "0x1" "A" "B"])
            (Except.error ()) (Except.ok [mkPool "0x2" "B" "C"]) 5) ⟨[], [], 0⟩)
        5).poolCount = ([mkPool "0x1" "A" "B"] ++ [mkPool "0x2" "B" "C"]).length ∧
    ([mkPool "0x1" "A" "B"] ++ [mkPool "0x2" "B" "C"] ≠ ([] : List Pool) →
      (PoolService.getHealthStatus
        (PoolService.runChunks
          (PoolService.refreshChunks (Except.ok [mkPool "0x1" "A" "B"])
            (Except.error ()) (Except.ok [mkPool "0x2" "B" "C"]) 5) ⟨[], [], 0⟩)
        5).poolCount ≠ 0) :=
  claim_C6_provider_failure_non_fatal [mkPool "0x1" "A" "B"]
    [mkPool "0x2" "B" "C"] 5 ⟨[], [], 0⟩ (by simp [mkPool])

/-! ### Hop bound of the SDK route search -/

/-- Every path produced by `findAllRoutes` is non-empty and strictly
shorter than `maxHops` (fuel-indexed induction on the recursion). -/
theorem findAllRoutes_paths_bounded :
    ∀ (fuel : ℕ) (coinIn coinOut : String)
      (graph : List (String × List PoolEdge)) (maxHops : ℕ)
      (currentPath : List PoolEdge) (visited : List String),
      maxHops - currentPath.length ≤ fuel →
      ∀ r ∈ AptosRouter.findAllRoutes coinIn coinOut graph maxHops
        currentPath visited,
        r ≠ [] ∧ r.length < maxHops := by
  intro fuel
  induction fuel with
  | zero =>
    intro coinIn coinOut graph maxHops currentPath visited hfuel r hr
    have hstop : maxHops ≤ currentPath.length := by omega
    unfold AptosRouter.findAllRoutes at hr
    rw [dif_pos hstop] at hr
    simp at hr
  | succ fuel ih =>
    intro coinIn coinOut graph maxHops currentPath visited hfuel r hr
    unfold AptosRouter.findAllRoutes at hr
    by_cases hstop : maxHops ≤ currentPath.length
    · rw [dif_pos hstop] at hr
      simp at hr
    · rw [dif_neg hstop] at hr
      by_cases hdest : coinIn = coinOut ∧ currentPath ≠ []
      · rw [if_pos hdest] at hr
        simp only [List.mem_singleton] at hr
        subst hr
        exact ⟨hdest.2, by omega⟩
      · rw [if_neg hdest] at hr
        by_cases hvis : coinIn ∈ visited
        · rw [if_pos hvis] at hr
          simp at hr
        · rw [if_neg hvis] at hr
          simp only [List.mem_flatten, List.mem_map] at hr
          obtain ⟨_, ⟨n, hn, rfl⟩, hrmem⟩ := hr
          by_cases hnv : n.coinOut ∈ coinIn :: visited
          · rw [if_pos hnv] at hrmem
            simp at hrmem
          · rw [if_neg hnv] at hrmem
            refine ih n.coinOut coinOut graph maxHops (currentPath ++ [n])
              (coinIn :: visited) ?_ r hrmem
            simp only [List.length_append, List.length_cons, List.length_nil]
            omega

/-- C10: for every pool graph, coin pair and hop bound, each path
returned by the SDK's local route search `AptosRouter.findAllRoutes`
(started with empty path and visited set, as `findOptimalRouteLocal`
does) has strictly fewer than `maxHops` steps — the hop-bound check runs
before the destination check, so completed paths of length exactly
`maxHops` are discarded; in particular `maxHops = 1` returns no routes
at all, even when a pool directly connecting the two coins exists. -/
theorem claim_C10_findAllRoutes_strict_hop_bound
    (coinIn coinOut : String) (graph : List (String × List PoolEdge))
    (maxHops : ℕ) :
    (∀ r ∈ AptosRouter.findAllRoutes coinIn coinOut graph maxHops [] [],
      r.length < maxHops) ∧
    (maxHops = 1 →
      AptosRouter.findAllRoutes coinIn coinOut graph maxHops [] [] = []) := by
  have h := findAllRoutes_paths_bounded maxHops coinIn coinOut graph maxHops
    [] [] (by simp)
  refine ⟨fun r hr => (h r hr).2, ?_⟩
  intro h1
  subst h1
  rw [List.eq_nil_iff_forall_not_mem]
  intro r hr
  obtain ⟨hne, hlt⟩ := h r hr
  have hpos := List.length_pos.mpr hne
  omega

/-- Witness for C10: a graph with a pool directly connecting `"A"` and
`"B"`, searched with `maxHops = 1`, yields no route. -/
theorem claim_C10_witness :
    (∀ r ∈ AptosRouter.findAllRoutes "A" "B"
        [("A", [⟨"B", mkPool "0x1" "A" "B"⟩]),
         ("B", [⟨"A", mkPool "0x1" "A" "B"⟩])] 1 [] [],
      r.length < 1) ∧
    (1 = 1 →
      AptosRouter.findAllRoutes "A" "B"
        [("A", [⟨"B", mkPool "0x1" "A" "B"⟩]),
         ("B", [⟨"A", mkPool "0x1" "A" "B"⟩])] 1 [] [] = []) :=
  claim_C10_findAllRoutes_strict_hop_bound "A" "B"
    [("A", [⟨"B", mkPool "0x1" "A" "B"⟩]),
     ("B", [⟨"A", mkPool "0x1" "A" "B"⟩])] 1

end AptosAgg
